import Mathlib

/-!
Verification development for the rdflib excerpt: the N-Triples streaming
parser (src/rdflib/plugins/parsers/ntriples.py), the term model
(src/rdflib/term_new.py) and the abstract store contract
(src/rdflib/store.py).

Python strings are modelled as lists of Unicode code points (List Nat),
which is faithful to Python 3 str semantics (a sequence of code points,
surrogates included).  The fixed regular expressions of ntriples.py are
hand-compiled to deterministic matchers: each of those patterns has a
unique match at any position (greedy character-class runs delimited by
excluded characters admit no backtracking alternatives), so a direct
functional matcher has exactly the regex's semantics.  Comments above each
matcher quote the source pattern.
-/

namespace Rdflib

/-- Decidable equality of Except values, for evaluating the parser
outcomes appearing in concrete theorems. -/
instance instDecEqExcept {ε α : Type} [DecidableEq ε] [DecidableEq α] :
    DecidableEq (Except ε α) := fun x y =>
  match x, y with
  | .ok a, .ok b =>
    if h : a = b then .isTrue (by rw [h]) else .isFalse (by simp [h])
  | .error a, .error b =>
    if h : a = b then .isTrue (by rw [h]) else .isFalse (by simp [h])
  | .ok _, .error _ => .isFalse (by simp)
  | .error _, .ok _ => .isFalse (by simp)

/-- Convert a Lean string literal to the code-point list used throughout. -/
def codes (s : String) : List Nat := s.data.map Char.toNat

/-- Characters matched by r_safe in ntriples.py:
r_safe = ([\x20\x21\x23-\x5B\x5D-\x7E]+), i.e. printable ASCII except
the double quote (0x22) and the backslash (0x5C). -/
def isSafe (c : Nat) : Bool := decide (0x20 ≤ c ∧ c ≤ 0x7E ∧ c ≠ 0x22 ∧ c ≠ 0x5C)

/-- Space or tab, the character class of r_wspace and r_wspaces. -/
def isSpTab (c : Nat) : Bool := c == 0x20 || c == 0x09

/-- Python str.isspace for the ASCII range: space, tab, LF, VT, FF, CR.
(Unicode space characters outside ASCII are not needed by any claim.) -/
def pySpace (c : Nat) : Bool :=
  c == 0x20 || c == 0x09 || c == 0x0A || c == 0x0B || c == 0x0C || c == 0x0D

/-- The class excluded inside the second group of the uriref pattern:
the pattern is uriref = <([^:]+:[^\s"<>]+)>, whose second run excludes
regex whitespace (space, tab, LF, CR, FF, VT), the quote and both angle
brackets.  okB is the characters the run accepts. -/
def okB (c : Nat) : Bool :=
  !(pySpace c) && c != 0x22 && c != 0x3C && c != 0x3E

/-- Lowercase ASCII letter, for the language-tag pattern. -/
def isLow (c : Nat) : Bool := decide (0x61 ≤ c ∧ c ≤ 0x7A)

/-- Lowercase letter or digit, for language subtags ([a-z0-9]). -/
def isLowDig (c : Nat) : Bool := isLow c || decide (0x30 ≤ c ∧ c ≤ 0x39)

/-- ASCII letter, for the blank-node label pattern. -/
def isAlpha (c : Nat) : Bool :=
  decide ((0x41 ≤ c ∧ c ≤ 0x5A) ∨ (0x61 ≤ c ∧ c ≤ 0x7A))

/-- ASCII letter or digit. -/
def isAlnum (c : Nat) : Bool := isAlpha c || decide (0x30 ≤ c ∧ c ≤ 0x39)

/-- Uppercase-hex digit value, the class [0-9A-F] of r_uniquot. -/
def hexDigitVal (c : Nat) : Option Nat :=
  if 0x30 ≤ c ∧ c ≤ 0x39 then some (c - 0x30)
  else if 0x41 ≤ c ∧ c ≤ 0x46 then some (c - 0x41 + 10)
  else none

/-- Value of a list of uppercase-hex digits (most significant first). -/
def hexVal : List Nat → Option Nat → Option Nat
  | _, none => none
  | [], some acc => some acc
  | c :: cs, some acc =>
    match hexDigitVal c with
    | none => none
    | some v => hexVal cs (some (acc * 16 + v))

/-- r_line = ([^\r\n]*)(?:\r\n|\r|\n): the logical-line pattern of the
line reader.  Returns (line without terminator, remaining buffer). -/
def matchRLine (l : List Nat) : Option (List Nat × List Nat) :=
  match l.dropWhile (fun c => c != 0x0D && c != 0x0A) with
  | 0x0D :: 0x0A :: r => some (l.takeWhile (fun c => c != 0x0D && c != 0x0A), r)
  | 0x0D :: r => some (l.takeWhile (fun c => c != 0x0D && c != 0x0A), r)
  | 0x0A :: r => some (l.takeWhile (fun c => c != 0x0D && c != 0x0A), r)
  | _ => none

/-- uriref = <([^:]+:[^\s"<>]+)>.  The first run extends to the first
colon of the input (it cannot cross one and shortening it cannot reach
another colon), the second run is the maximal okB run after that colon
and must be closed by a greater-than sign; no backtracking alternative
exists, so the matcher below is the regex.  Returns (group 1, rest). -/
def matchUriref : List Nat → Option (List Nat × List Nat)
  | 0x3C :: cs =>
    match cs.dropWhile (· != 0x3A) with
    | 0x3A :: cs2 =>
      if cs.takeWhile (· != 0x3A) = [] then none
      else
        match cs2.dropWhile okB with
        | 0x3E :: r =>
          if cs2.takeWhile okB = [] then none
          else some (cs.takeWhile (· != 0x3A) ++ 0x3A :: cs2.takeWhile okB, r)
        | _ => none
    | _ => none
  | _ => none

/-- r_nodeid = _:([A-Za-z][A-Za-z0-9]*).  Returns (label, rest). -/
def matchNodeid : List Nat → Option (List Nat × List Nat)
  | 0x5F :: 0x3A :: c :: cs =>
    if isAlpha c then some (c :: cs.takeWhile isAlnum, cs.dropWhile isAlnum)
    else none
  | _ => none

/-- Body scan of literal = "([^"\\]*(?:\\.[^"\\]*)*)": runs exclude the
quote and the backslash, an escape pair is a backslash plus any
non-newline character, the body ends at the first unescaped quote; the
next action is always forced by the next character, so the scan is the
regex.  The fuel argument only bookkeeps the recursion (each step
consumes at least one character; the caller passes the input length).
Returns (raw body with escapes intact, rest after the closing quote). -/
def scanBodyGo : Nat → List Nat → Option (List Nat × List Nat)
  | _, [] => none
  | 0, _ :: _ => none
  | _ + 1, [c] => if c = 0x22 then some ([], []) else none
  | n + 1, c :: d :: ds =>
    if c = 0x22 then some ([], d :: ds)
    else if c = 0x5C then
      if d = 0x0A then none
      else (scanBodyGo n ds).map (fun p => (c :: d :: p.1, p.2))
    else (scanBodyGo n (d :: ds)).map (fun p => (c :: p.1, p.2))

/-- The literal body scan on a code-point string. -/
def scanBody (l : List Nat) : Option (List Nat × List Nat) :=
  scanBodyGo l.length l

/-- Subtag loop of the language pattern, (?:-[a-z0-9]+)*: repeatedly a
hyphen followed by a nonempty lowercase-alphanumeric run, maximal.  Fuel
bounds the recursion; fuel at least the input length is always enough
since each step consumes at least two characters. -/
def langTailF : Nat → List Nat → List Nat × List Nat
  | 0, l => ([], l)
  | n + 1, l =>
    match l with
    | 0x2D :: cs =>
      if cs.takeWhile isLowDig = [] then ([], l)
      else
        let p := langTailF n (cs.dropWhile isLowDig)
        (0x2D :: cs.takeWhile isLowDig ++ p.1, p.2)
    | _ => ([], l)

/-- Language-tag pattern @([a-z]+(?:-[a-z0-9]+)*) without the at sign:
nonempty lowercase run then maximal subtags.  Returns (tag, rest). -/
def matchLang (l : List Nat) : Option (List Nat × List Nat) :=
  match l.takeWhile isLow with
  | [] => none
  | run =>
    let p := langTailF l.length (l.dropWhile isLow)
    some (run ++ p.1, p.2)

/-- r_literal = literal + litinfo where
litinfo = (?:@([a-z]+(?:-[a-z0-9]+)*)|\^\^<([^:]+:[^\s"<>]+)>)?.
Returns (raw body, language group, datatype group, rest).  When the
at-sign or caret-caret branch fails the optional litinfo matches empty
and the suffix characters stay in the rest, as with the regex. -/
def matchLiteral (l : List Nat) : Option (List Nat × Option (List Nat) × Option (List Nat) × List Nat) :=
  match l with
  | 0x22 :: cs =>
    match scanBody cs with
    | none => none
    | some (body, rest) =>
      match rest with
      | 0x40 :: r =>
        match matchLang r with
        | some (lang, r2) => some (body, some lang, none, r2)
        | none => some (body, none, none, rest)
      | 0x5E :: 0x5E :: r =>
        match matchUriref r with
        | some (dt, r2) => some (body, none, some dt, r2)
        | none => some (body, none, none, rest)
      | _ => some (body, none, none, rest)
  | _ => none

/-- The ParseError taxonomy of ntriples.py, one constructor per distinct
raise site (the message strings identify them in the source). -/
inductive PErr where
  /-- Failed to eat (NTriplesParser.eat when a pattern does not match). -/
  | failedToEat
  /-- Subject must be uriref or nodeID. -/
  | malformedSubject
  /-- Predicate must be uriref. -/
  | malformedPredicate
  /-- Unrecognised object type. -/
  | malformedObject
  /-- Trailing garbage. -/
  | trailingGarbage
  /-- Cannot have both a language and a datatype. -/
  | langAndDtype
  /-- Disallowed codepoint (unquote, value above 0x10FFFF). -/
  | disallowedCodepoint
  /-- Illegal escape at ... (unquote, unknown escape after a backslash). -/
  | illegalEscape
  /-- Illegal literal character (unquote, character outside r_safe). -/
  | illegalLiteralChar
deriving DecidableEq

/-- One escape dispatch of unquote, on the text following a backslash:
the r_quot two-character escapes t n r quote backslash, then the
r_uniquot alternatives backslash-u with four uppercase-hex digits and
backslash-U with eight (the value above 0x10FFFF being the disallowed
codepoint), then the illegal-escape failure, in source order.  Returns
the produced code point and the rest of the input. -/
def escStep : List Nat → Except PErr (Nat × List Nat)
  | [] => .error .illegalEscape
  | d :: ds =>
    if d = 0x74 then .ok (0x09, ds)
    else if d = 0x6E then .ok (0x0A, ds)
    else if d = 0x72 then .ok (0x0D, ds)
    else if d = 0x22 then .ok (0x22, ds)
    else if d = 0x5C then .ok (0x5C, ds)
    else if d = 0x75 then
      match ds with
      | h1 :: h2 :: h3 :: h4 :: es =>
        match hexVal [h1, h2, h3, h4] (some 0) with
        | some n =>
          if n > 0x10FFFF then .error .disallowedCodepoint else .ok (n, es)
        | none => .error .illegalEscape
      | _ => .error .illegalEscape
    else if d = 0x55 then
      match ds with
      | h1 :: h2 :: h3 :: h4 :: h5 :: h6 :: h7 :: h8 :: es =>
        match hexVal [h1, h2, h3, h4, h5, h6, h7, h8] (some 0) with
        | some n =>
          if n > 0x10FFFF then .error .disallowedCodepoint else .ok (n, es)
        | none => .error .illegalEscape
      | _ => .error .illegalEscape
    else .error .illegalEscape

/-- The loop of unquote of ntriples.py.  The source consumes a maximal
r_safe run per iteration and joins all pieces at the end; consuming safe
characters one at a time concatenates to the identical output.  The fuel
argument only bookkeeps the recursion (each iteration consumes at least
one character, so fuel at least the input length is never exhausted; the
caller passes exactly the length). -/
def unquoteGo : Nat → List Nat → Except PErr (List Nat)
  | _, [] => .ok []
  | 0, _ :: _ => .error .illegalLiteralChar
  | n + 1, c :: cs =>
    if isSafe c then (unquoteGo n cs).map (c :: ·)
    else if c = 0x5C then
      match escStep cs with
      | .error e => .error e
      | .ok (m, rest) => (unquoteGo n rest).map (m :: ·)
    else .error .illegalLiteralChar

/-- unquote of ntriples.py on a code-point string. -/
def unquote (s : List Nat) : Except PErr (List Nat) := unquoteGo s.length s

/-- Comparison values of literals (term_new.py Literal._cmp_value): the
native Python value a registered datatype conversion yields, the plain
string for a plain literal, or the tuple (string, datatype, language)
when no conversion applies but a language or datatype is present.
Conversions producing IEEE floats, dates and base64 bytes exist in the
source table but are not modelled (no claim touches them); the string
family datatypes are registered with conversion None in the source, which
behaves identically to an unregistered datatype. -/
inductive PyVal where
  | int (n : Int)
  | bool (b : Bool)
  | str (s : List Nat)
  | tuple (s : List Nat) (datatype : Option (List Nat)) (language : Option (List Nat))
deriving DecidableEq

/-- Python int(str): strip surrounding whitespace, optional sign, then
decimal digits with single underscores allowed between digits. -/
def duGo : List Nat → Nat → Option Nat
  | [], acc => some acc
  | c :: cs, acc =>
    if 0x30 ≤ c ∧ c ≤ 0x39 then duGo cs (acc * 10 + (c - 0x30))
    else if c = 0x5F then
      match cs with
      | d :: _ => if 0x30 ≤ d ∧ d ≤ 0x39 then duGo cs acc else none
      | [] => none
    else none

/-- Python int(str) on a code-point string, returning none on ValueError. -/
def pyIntOfStr (s : List Nat) : Option Int :=
  let t := ((s.dropWhile pySpace).reverse.dropWhile pySpace).reverse
  match t with
  | 0x2B :: rest =>
    match rest with
    | c :: _ => if 0x30 ≤ c ∧ c ≤ 0x39 then (duGo rest 0).map Int.ofNat else none
    | [] => none
  | 0x2D :: rest =>
    match rest with
    | c :: _ => if 0x30 ≤ c ∧ c ≤ 0x39 then (duGo rest 0).map (fun n => -(Int.ofNat n)) else none
    | [] => none
  | c :: _ => if 0x30 ≤ c ∧ c ≤ 0x39 then (duGo t 0).map Int.ofNat else none
  | [] => none

/-- The XSD namespace prefix of term_new.py. -/
def xsdPfx : List Nat := codes ("http://www.w3.org/2001/XMLSchema#")

/-- The datatypes bound to int in XSDToPython. -/
def intFamily : List (List Nat) :=
  [xsdPfx ++ codes ("integer"), xsdPfx ++ codes ("nonPositiveInteger"),
   xsdPfx ++ codes ("long"), xsdPfx ++ codes ("nonNegativeInteger"),
   xsdPfx ++ codes ("negativeInteger"), xsdPfx ++ codes ("int"),
   xsdPfx ++ codes ("unsignedLong"), xsdPfx ++ codes ("positiveInteger"),
   xsdPfx ++ codes ("short"), xsdPfx ++ codes ("unsignedInt"),
   xsdPfx ++ codes ("byte"), xsdPfx ++ codes ("unsignedShort"),
   xsdPfx ++ codes ("unsignedByte")]

/-- Registered conversions modelled from XSDToPython (term_new.py): the
int family and boolean (Python bool on a string is the nonemptiness
test).  String-family entries carry conversion None in the source and so
act like absent entries; float, double, decimal, base64Binary and the
date and time conversions are outside the model. -/
inductive Conv where
  | toInt
  | toBool
deriving DecidableEq

/-- Lookup in the modelled _toPythonMapping, keyed by the datatype URI. -/
def convOf : Option (List Nat) → Option Conv
  | none => none
  | some d =>
    if d ∈ intFamily then some .toInt
    else if d = xsdPfx ++ codes ("boolean") then some .toBool
    else none

/-- Literal._toCompareValue composed with Literal.toPython: apply the
registered conversion; a conversion error (caught in the source) and an
absent conversion both fall back to the string itself, which becomes the
bare string when neither language nor datatype is present and the tuple
(string, datatype, language) otherwise. -/
def computeCmp (value : List Nat) (language datatype : Option (List Nat)) : PyVal :=
  let fallback : PyVal :=
    if language = none ∧ datatype = none then .str value
    else .tuple value datatype language
  match convOf datatype with
  | some .toInt =>
    match pyIntOfStr value with
    | some n => .int n
    | none => fallback
  | some .toBool => .bool (decide (value ≠ []))
  | none => fallback

/-- An RDF literal (term_new.py Literal): lexical value, optional
language, optional datatype, and the comparison value derived once at
construction. -/
structure Lit where
  value : List Nat
  language : Option (List Nat)
  datatype : Option (List Nat)
  cmp : PyVal
deriving DecidableEq

/-- Literal construction for a string value (term_new.py Literal.__init__
after the conflict check): a present datatype clears the language;
_castPythonToLiteral of a str returns (value, None) so a plain string
acquires no datatype; the comparison value is computed once. -/
def mkLit (value : List Nat) (language datatype : Option (List Nat)) : Lit :=
  match datatype with
  | some d => { value := value, language := none, datatype := some d,
                cmp := computeCmp value none (some d) }
  | none => { value := value, language := language, datatype := none,
              cmp := computeCmp value language none }

/-- Checked literal construction: constructing with both a language and a
datatype raises TypeError in the source. -/
def mkLiteral (value : List Nat) (language datatype : Option (List Nat)) :
    Except Unit Lit :=
  match language, datatype with
  | some _, some _ => .error ()
  | _, _ => .ok (mkLit value language datatype)

/-- Python == on comparison values: exact on equal kinds (tuples
componentwise, with URIRef equality being string equality and None equal
only to None); int and bool compare numerically across kinds since bool
is an int subclass; every other cross-kind comparison is False. -/
def pyEq : PyVal → PyVal → Bool
  | .int a, .int b => a == b
  | .bool a, .bool b => a == b
  | .int a, .bool b => a == (if b then (1 : Int) else 0)
  | .bool a, .int b => (if a then (1 : Int) else 0) == b
  | .str a, .str b => a == b
  | .tuple a d1 g1, .tuple b d2 g2 => a == b && d1 == d2 && g1 == g2
  | _, _ => false

/-- Whether type(x) is in [int, float] (term_new.py numeric fallback test;
bool is excluded because type() is exact, floats are outside the model). -/
def isNumVal : PyVal → Bool
  | .int _ => true
  | _ => false

/-- Literal.__eq__ restricted to two literals (term_new.py lines
533-556): equal language and datatype compare the comparison values;
otherwise two numeric comparison values compare numerically; otherwise
False. -/
def literalEq (a b : Lit) : Bool :=
  if a.language = b.language ∧ a.datatype = b.datatype then pyEq a.cmp b.cmp
  else if isNumVal a.cmp && isNumVal b.cmp then pyEq a.cmp b.cmp
  else false

/-- RDF terms produced by the parser: URI references, blank nodes and
literals (term_new.py term hierarchy restricted to what ntriples.py
constructs). -/
inductive Term where
  | uriref (s : List Nat)
  | bnode (label : List Nat)
  | literal (l : Lit)
deriving DecidableEq

/-- Term equality dispatch: URIRef.__eq__ and BNode.__eq__ compare
strings inside the same class and return False across classes; Literal
against a non-literal term compares the comparison value with a
non-comparable object, which is False for every modelled term. -/
def termEq : Term → Term → Bool
  | .uriref a, .uriref b => a == b
  | .bnode a, .bnode b => a == b
  | .literal a, .literal b => literalEq a b
  | _, _ => false

/-- Literal._quote_encode: a chain of replaces turning a backslash into a
double backslash, then a newline into backslash-n, then a quote into
backslash-quote; the three targets are disjoint after each step, so the
chain is the per-character expansion below, wrapped in quotes by the
caller. -/
def qEncode (s : List Nat) : List Nat :=
  s.flatMap (fun c =>
    if c = 0x5C then [0x5C, 0x5C]
    else if c = 0x0A then [0x5C, 0x6E]
    else if c = 0x22 then [0x5C, 0x22]
    else [c])

/-- Canonical textual serialization of a term: URIRef.n3, BNode.n3 and
Literal._literal_n3 with use_plain False and no qname callback (the n3
method defaults), quoted_dt being the angle-bracketed datatype. -/
def termN3 : Term → List Nat
  | .uriref s => 0x3C :: s ++ [0x3E]
  | .bnode b => 0x5F :: 0x3A :: b
  | .literal l =>
    let enc := 0x22 :: qEncode l.value ++ [0x22]
    match l.language, l.datatype with
    | some lg, some dt => enc ++ 0x40 :: lg ++ 0x5E :: 0x5E :: 0x3C :: dt ++ [0x3E]
    | some lg, none => enc ++ 0x40 :: lg
    | none, some dt => enc ++ 0x5E :: 0x5E :: 0x3C :: dt ++ [0x3E]
    | none, none => enc

/-- The default Sink of ntriples.py: counts emitted triples (the print
side effect is recorded as the list of emitted triples). -/
structure Sink where
  length : Nat
  triples : List (Term × Term × Term)
deriving DecidableEq

/-- Sink.triple: increment the counter and record the triple. -/
def sinkTriple (s : Sink) (t : Term × Term × Term) : Sink :=
  { length := s.length + 1, triples := s.triples ++ [t] }

/-- A parser-method outcome: either a value plus the remaining line
(self.line after the consumed tokens), or a ParseError paired with the
value self.line holds when the error is raised (eat raises before
consuming; unquote raises after eat has consumed). -/
abbrev PRes (α : Type) := Except (PErr × List Nat) α

/-- NTriplesParser.uriref on a line starting with a less-than sign: eat
r_uriref (raising Failed-to-eat with the line unchanged when the pattern
does not match), then unquote the group (uriquote is the identity since
the module-level validate flag is False), then wrap as URI. -/
def urirefP (l : List Nat) : PRes (Term × List Nat) :=
  match matchUriref l with
  | none => .error (.failedToEat, l)
  | some (g, r) =>
    match unquote g with
    | .error e => .error (e, r)
    | .ok u => .ok (.uriref u, r)

/-- NTriplesParser.nodeid on a line starting with an underscore: eat
r_nodeid and wrap the label as a blank node (no unquote). -/
def nodeidP (l : List Nat) : PRes (Term × List Nat) :=
  match matchNodeid l with
  | none => .error (.failedToEat, l)
  | some (g, r) => .ok (.bnode g, r)

/-- NTriplesParser.literal on a line starting with a quote: eat
r_literal, reject a language combined with a datatype, unquote the body
(the datatype group is used verbatim, without unquote), and build the
Literal. -/
def literalP (l : List Nat) : PRes (Term × List Nat) :=
  match matchLiteral l with
  | none => .error (.failedToEat, l)
  | some (body, lang, dty, r) =>
    match lang, dty with
    | some _, some _ => .error (.langAndDtype, r)
    | lang2, dty2 =>
      match unquote body with
      | .error e => .error (e, r)
      | .ok v => .ok (.literal (mkLit v lang2 dty2), r)

/-- NTriplesParser.subject: uriref or nodeid; the or-chain only reaches
nodeid when the line does not start with a less-than sign, and the
Malformed-subject error is raised only when neither peek succeeds. -/
def subjectP (l : List Nat) : PRes (Term × List Nat) :=
  if l.head? = some 0x3C then urirefP l
  else if l.head? = some 0x5F then nodeidP l
  else .error (.malformedSubject, l)

/-- NTriplesParser.predicate: uriref only. -/
def predicateP (l : List Nat) : PRes (Term × List Nat) :=
  if l.head? = some 0x3C then urirefP l
  else .error (.malformedPredicate, l)

/-- NTriplesParser.object: uriref, nodeid or literal by peeked first
character; otherwise the Unrecognised-object-type error. -/
def objectP (l : List Nat) : PRes (Term × List Nat) :=
  if l.head? = some 0x3C then urirefP l
  else if l.head? = some 0x5F then nodeidP l
  else if l.head? = some 0x22 then literalP l
  else .error (.malformedObject, l)

/-- eat(r_wspaces): at least one space or tab, maximal. -/
def eatWspaces (l : List Nat) : Option (List Nat) :=
  match l with
  | c :: _ => if isSpTab c then some (l.dropWhile isSpTab) else none
  | [] => none

/-- eat(r_tail): optional whitespace, a dot, optional whitespace. -/
def eatTail (l : List Nat) : Option (List Nat) :=
  match l.dropWhile isSpTab with
  | 0x2E :: r => some (r.dropWhile isSpTab)
  | _ => none

/-- NTriplesParser.parseline: skip leading whitespace; an empty line or a
comment is a no-op (ok none); otherwise subject, mandatory whitespace,
predicate, mandatory whitespace, object, statement tail, and no trailing
characters.  A returned error carries the residual line for the
Invalid-line wrapper in parse. -/
def parseline (l0 : List Nat) : PRes (Option (Term × Term × Term)) :=
  let l := l0.dropWhile isSpTab
  if l = [] ∨ l.head? = some 0x23 then .ok none
  else
    match subjectP l with
    | .error e => .error e
    | .ok (subj, l1) =>
      match eatWspaces l1 with
      | none => .error (.failedToEat, l1)
      | some l2 =>
        match predicateP l2 with
        | .error e => .error e
        | .ok (pred, l3) =>
          match eatWspaces l3 with
          | none => .error (.failedToEat, l3)
          | some l4 =>
            match objectP l4 with
            | .error e => .error e
            | .ok (obj, l5) =>
              match eatTail l5 with
              | none => .error (.failedToEat, l5)
              | some l6 =>
                if l6 = [] then .ok (some (subj, pred, obj))
                else .error (.trailingGarbage, l6)

/-- Errors escaping NTriplesParser.parse: the EOF-in-line ParseError
raised inside readline (propagating unwrapped), and the Invalid-line
ParseError wrapping a per-line failure, carrying the value of self.line
at the moment of the wrap. -/
inductive TopErr where
  | eofInLine
  | invalidLine (line : List Nat)
deriving DecidableEq

/-- Inner loop of NTriplesParser.readline: match r_line against the
carry-over buffer; on success consume and return the line; otherwise
read the next chunk (the underlying source is modelled as the list of
nonempty chunks its successive reads yield, exhaustion being the empty
list); at exhaustion an all-whitespace nonempty buffer raises EOF-in-line
and anything else yields the no-more-lines signal. -/
def readlineLoop : List (List Nat) → List Nat →
    Except TopErr (Option (List Nat × List (List Nat) × List Nat))
  | chunks, buffer =>
    match matchRLine buffer with
    | some (line, rest) => .ok (some (line, chunks, rest))
    | none =>
      match chunks with
      | [] =>
        if buffer ≠ [] ∧ buffer.all pySpace then .error .eofInLine
        else .ok none
      | c :: cs => readlineLoop cs (buffer ++ c)

/-- NTriplesParser.readline: when the buffer is empty first pull one
chunk, returning the clean no-more-lines signal if the source is already
exhausted, then run the matching loop. -/
def readline (chunks : List (List Nat)) (buffer : List Nat) :
    Except TopErr (Option (List Nat × List (List Nat) × List Nat)) :=
  if buffer = [] then
    match chunks with
    | [] => .ok none
    | c :: cs => readlineLoop cs c
  else readlineLoop chunks buffer

/-- The while loop of NTriplesParser.parse: read a line, stop cleanly on
the no-more-lines signal, parse the line, wrap a ParseError as
Invalid-line carrying the residual self.line, and feed emitted triples to
the sink.  The fuel argument only bounds the iteration count; every
iteration consumes at least the line terminator, so fuel exceeding the
total input length is never exhausted. -/
def parseGo : Nat → List (List Nat) → List Nat → Sink → Except TopErr Sink
  | 0, _, _, sink => .ok sink
  | n + 1, chunks, buffer, sink =>
    match readline chunks buffer with
    | .error e => .error e
    | .ok none => .ok sink
    | .ok (some (line, chunks2, buf2)) =>
      match parseline line with
      | .error (_, res) => .error (.invalidLine res)
      | .ok none => parseGo n chunks2 buf2 sink
      | .ok (some t) => parseGo n chunks2 buf2 (sinkTriple sink t)

/-- Total character count of the chunk list, used to budget the loop. -/
def totalLen (chunks : List (List Nat)) : Nat :=
  (chunks.map List.length).sum

/-- NTriplesParser.parse on a chunked source, starting from the given
sink (the default parser starts from Sink with length 0). -/
def parseNT (chunks : List (List Nat)) (sink : Sink) : Except TopErr Sink :=
  parseGo (totalLen chunks + 1) chunks [] sink

/-- The same top-level loop expressed over the stream of logical lines
the line reader delivers: parse each line in order, abort with the
Invalid-line wrapper on the first ParseError, accumulate into the sink. -/
def parseLines : List (List Nat) → Sink → Except TopErr Sink
  | [], sink => .ok sink
  | l :: ls, sink =>
    match parseline l with
    | .error (_, res) => .error (.invalidLine res)
    | .ok none => parseLines ls sink
    | .ok (some t) => parseLines ls (sinkTriple sink t)

/-- Store-side events (store.py): the dispatcher fires a TripleAdded
notification carrying the triple and context.  Modelled from the spec:
rdflib.events is not part of the excerpt; the spec states that add fires
a TripleAdded notification after a successful insert. -/
inductive StoreEvent where
  | tripleAdded (t : Term × Term × Term) (context : Option Term)
deriving DecidableEq

/-- The error the store contract prescribes for violations (quoted
without context, quoted without formula awareness).  Store.add as written
never raises it. -/
inductive StoreErr where
  | contractViolation
deriving DecidableEq

/-- Store.add (store.py lines 202-211): despite the docstring saying a
quoted statement without a context, or on a store that is not
formula-aware, should be an error, the body performs no check: it
unpacks the triple and dispatches the TripleAdded event, for every value
of context and quoted and independent of the capability flags. -/
def storeAdd (t : Term × Term × Term) (context : Option Term)
    (quoted : Bool) (events : List StoreEvent) :
    Except StoreErr (List StoreEvent) :=
  let _ := quoted
  .ok (events ++ [.tripleAdded t context])

/-- A pattern slot of triples_choices: a plain value (a term or the None
wildcard) or a Python list of alternatives. -/
inductive Slot where
  | val (t : Option Term)
  | choices (ts : List Term)
deriving DecidableEq

/-- A triple pattern of plain slots, as passed to Store.triples. -/
abbrev Pat := Option Term × Option Term × Option Term

/-- Store.triples_choices (store.py lines 232-269) over an abstract
triples implementation T: the object slot is examined first, then the
subject, then the predicate; a second list-valued slot trips an assert;
a nonempty list produces the union in list order of per-alternative
triples queries, and an empty list substitutes None (the wildcard) in
that position; with no list-valued slot the generator body yields
nothing. -/
def triples_choices (s p o : Slot) (ctx : Option Term)
    (T : Pat → Option Term → List ((Term × Term × Term) × Option Term)) :
    Except Unit (List ((Term × Term × Term) × Option Term)) :=
  match o with
  | .choices os =>
    match s, p with
    | .choices _, _ => .error ()
    | _, .choices _ => .error ()
    | .val sv, .val pv =>
      if os = [] then .ok (T (sv, pv, none) ctx)
      else .ok (os.flatMap (fun ob => T (sv, pv, some ob) ctx))
  | .val ov =>
    match s with
    | .choices ss =>
      match p with
      | .choices _ => .error ()
      | .val pv =>
        if ss = [] then .ok (T (none, pv, ov) ctx)
        else .ok (ss.flatMap (fun sb => T (some sb, pv, ov) ctx))
    | .val sv =>
      match p with
      | .choices ps =>
        if ps = [] then .ok (T (sv, none, ov) ctx)
        else .ok (ps.flatMap (fun pb => T (sv, some pb, ov) ctx))
      | .val _ => .ok []

/-- Scheme-like well-formedness of an IRI string, the shape the uriref
pattern accepts made unquote-invariant: a nonempty colon-free part, the
first colon, a nonempty remainder free of whitespace, quote and angle
brackets, all characters safe (so unquote is the identity on it). -/
def wfUri (s : List Nat) : Bool :=
  decide (s.takeWhile (· != 0x3A) ≠ []) &&
  (match s.dropWhile (· != 0x3A) with
   | 0x3A :: b => decide (b ≠ []) && b.all okB
   | _ => false) &&
  s.all isSafe

/-- Characters a literal lexical value may hold so that quote-encode
followed by unquote is the identity: printable ASCII (the quote and the
backslash get escaped) or the newline (escaped as backslash-n). -/
def wfLitChar (c : Nat) : Bool := decide (0x20 ≤ c ∧ c ≤ 0x7E) || c == 0x0A

/-- The parser-representable terms, for the round-trip property: a
scheme-like safe IRI; a blank node labelled letter-then-alphanumerics; a
literal with representable value, at most one of a fully-matching
lowercase language tag or a scheme-like safe datatype, and the comparison
value the constructor derives. -/
def wfTerm : Term → Bool
  | .uriref s => wfUri s
  | .bnode b =>
    match b with
    | [] => false
    | c :: cs => isAlpha c && cs.all isAlnum
  | .literal l =>
    l.value.all wfLitChar &&
    (match l.language, l.datatype with
     | some lg, none => decide (matchLang lg = some (lg, []))
     | none, some dt => wfUri dt
     | none, none => true
     | some _, some _ => false) &&
    decide (l.cmp = computeCmp l.value l.language l.datatype)

/-- Literal equality as the amended claim words it: equal language tags
and datatypes with equal derived comparison values, or two numeric
comparison values that compare equal numerically. -/
def specLitEq (a b : Lit) : Bool :=
  (decide (a.language = b.language) && decide (a.datatype = b.datatype) &&
     pyEq a.cmp b.cmp) ||
  (isNumVal a.cmp && isNumVal b.cmp && pyEq a.cmp b.cmp)

/-- The single-statement input template of the first testable property:
subject, predicate and object IRI-refs separated by single spaces,
closed by space-dot (the line ending is appended by the caller). -/
def ntLine (s p o : List Nat) : List Nat :=
  0x3C :: (s ++ 0x3E :: 0x20 :: 0x3C :: (p ++ 0x3E :: 0x20 :: 0x3C ::
    (o ++ 0x3E :: 0x20 :: 0x2E :: [])))

/-- Whether a line goes through parseline without a ParseError (emitting
a triple or skipped as blank/comment). -/
def parselineOk (l : List Nat) : Bool :=
  match parseline l with
  | .ok _ => true
  | .error _ => false

/-! Helper lemmas about character-class runs. -/

theorem takeWhile_append_cons (p : Nat → Bool) (xs : List Nat) (y : Nat)
    (ys : List Nat) (hxs : ∀ a ∈ xs, p a = true) (hy : p y = false) :
    (xs ++ y :: ys).takeWhile p = xs := by
  induction xs with
  | nil => simp [List.takeWhile_cons, hy]
  | cons a t ih =>
    have ha : p a = true := hxs a (List.mem_cons_self a t)
    simp only [List.cons_append, List.takeWhile_cons, ha, if_true]
    rw [ih (fun b hb => hxs b (List.mem_cons_of_mem a hb))]

theorem dropWhile_append_cons (p : Nat → Bool) (xs : List Nat) (y : Nat)
    (ys : List Nat) (hxs : ∀ a ∈ xs, p a = true) (hy : p y = false) :
    (xs ++ y :: ys).dropWhile p = y :: ys := by
  induction xs with
  | nil => simp [List.dropWhile_cons, hy]
  | cons a t ih =>
    have ha : p a = true := hxs a (List.mem_cons_self a t)
    simp only [List.cons_append, List.dropWhile_cons, ha, if_true]
    exact ih (fun b hb => hxs b (List.mem_cons_of_mem a hb))

theorem dropWhile_head_false (p : Nat → Bool) (x : Nat) (xs : List Nat)
    (hx : p x = false) : (x :: xs).dropWhile p = x :: xs := by
  simp [List.dropWhile_cons, hx]

/-! Lemmas about unquote. -/

theorem escStep_len (cs : List Nat) (m : Nat) (rest : List Nat)
    (h : escStep cs = .ok (m, rest)) : rest.length ≤ cs.length := by
  match cs with
  | [] => simp [escStep] at h
  | d :: ds =>
    simp only [escStep] at h
    split_ifs at h with h1 h2 h3 h4 h5 h6 h7
    any_goals
      (injection h with h9
       injection h9 with h9a h9b
       rw [← h9b]
       simp only [List.length_cons]
       omega)
    · rcases ds with _ | ⟨a1, _ | ⟨a2, _ | ⟨a3, _ | ⟨a4, es⟩⟩⟩⟩
      · simp at h
      · simp at h
      · simp at h
      · simp at h
      · dsimp only at h
        rcases hv : hexVal [a1, a2, a3, a4] (some 0) with _ | n
        · rw [hv] at h; simp at h
        · rw [hv] at h
          dsimp only at h
          split_ifs at h
          injection h with h9
          injection h9 with h9a h9b
          rw [← h9b]
          simp only [List.length_cons]
          omega
    · rcases ds with _ | ⟨a1, _ | ⟨a2, _ | ⟨a3, _ | ⟨a4, _ | ⟨a5, _ |
        ⟨a6, _ | ⟨a7, _ | ⟨a8, es⟩⟩⟩⟩⟩⟩⟩⟩
      · simp at h
      · simp at h
      · simp at h
      · simp at h
      · simp at h
      · simp at h
      · simp at h
      · simp at h
      · dsimp only at h
        rcases hv : hexVal [a1, a2, a3, a4, a5, a6, a7, a8] (some 0) with _ | n
        · rw [hv] at h; simp at h
        · rw [hv] at h
          dsimp only at h
          split_ifs at h
          injection h with h9
          injection h9 with h9a h9b
          rw [← h9b]
          simp only [List.length_cons]
          omega

theorem unquoteGo_pin (n : Nat) :
    ∀ s : List Nat, s.length ≤ n → unquoteGo n s = unquoteGo s.length s := by
  induction n using Nat.strong_induction_on with
  | _ n ih =>
    intro s hs
    match n, s with
    | _, [] => simp only [unquoteGo]
    | 0, c :: cs => simp at hs
    | n + 1, c :: cs =>
      have hcs : cs.length ≤ n := by
        simp only [List.length_cons] at hs; omega
      show unquoteGo (n + 1) (c :: cs) = unquoteGo (cs.length + 1) (c :: cs)
      cases hes : escStep cs with
      | error e =>
        simp only [unquoteGo, hes]
        rw [ih n (Nat.lt_succ_self n) cs hcs]
      | ok p =>
        obtain ⟨m, rest⟩ := p
        have hlen : rest.length ≤ cs.length := escStep_len cs m rest hes
        simp only [unquoteGo, hes]
        rw [ih n (Nat.lt_succ_self n) cs hcs,
            ih n (Nat.lt_succ_self n) rest (Nat.le_trans hlen hcs),
            ih cs.length (Nat.lt_succ_of_le hcs) rest hlen]

theorem unquoteGo_fuel (n : Nat) (s : List Nat) (h : s.length ≤ n) :
    unquoteGo n s = unquote s :=
  unquoteGo_pin n s h

theorem unquote_cons_safe (c : Nat) (cs : List Nat) (hc : isSafe c = true) :
    unquote (c :: cs) = (unquote cs).map (c :: ·) := by
  show unquoteGo (cs.length + 1) (c :: cs) = (unquote cs).map (c :: ·)
  simp only [unquoteGo, hc, if_true]
  rfl

theorem unquote_backslash_err (cs : List Nat) (e : PErr)
    (h : escStep cs = .error e) : unquote (0x5C :: cs) = .error e := by
  have h5c : isSafe 0x5C = false := by decide
  show unquoteGo (cs.length + 1) (0x5C :: cs) = .error e
  simp only [unquoteGo, h5c, Bool.false_eq_true, if_false, h]
  simp

theorem unquote_backslash_ok (cs : List Nat) (m : Nat) (rest : List Nat)
    (h : escStep cs = .ok (m, rest)) :
    unquote (0x5C :: cs) = (unquote rest).map (m :: ·) := by
  have h5c : isSafe 0x5C = false := by decide
  have hlen : rest.length ≤ cs.length := escStep_len cs m rest h
  show unquoteGo (cs.length + 1) (0x5C :: cs) = (unquote rest).map (m :: ·)
  simp only [unquoteGo, h5c, Bool.false_eq_true, if_false, h]
  rw [unquoteGo_fuel cs.length rest hlen]
  simp

theorem unquote_safe (s : List Nat) (h : s.all isSafe = true) :
    unquote s = .ok s := by
  induction s with
  | nil => rfl
  | cons c cs ih =>
    rw [List.all_cons, Bool.and_eq_true] at h
    rw [unquote_cons_safe c cs h.1, ih h.2]
    rfl

/-- escStep on the C8 overflow escape payload: uppercase U then the
eight uppercase-hex digits 00110000. -/
theorem escStep_u110000 (suf : List Nat) :
    escStep (0x55 :: ([0x30, 0x30, 0x31, 0x31, 0x30, 0x30, 0x30, 0x30] ++ suf)) =
    .error .disallowedCodepoint := rfl

/-- escStep on the C8 maximal-codepoint escape payload 0010FFFF. -/
theorem escStep_u10FFFF (suf : List Nat) :
    escStep (0x55 :: ([0x30, 0x30, 0x31, 0x30, 0x46, 0x46, 0x46, 0x46] ++ suf)) =
    .ok (0x10FFFF, suf) := rfl

theorem unquote_u110000 (pre suf : List Nat) (hpre : pre.all isSafe = true) :
    unquote (pre ++ (0x5C :: 0x55 ::
      ([0x30, 0x30, 0x31, 0x31, 0x30, 0x30, 0x30, 0x30] ++ suf))) =
    .error .disallowedCodepoint := by
  induction pre with
  | nil =>
    rw [List.nil_append]
    exact unquote_backslash_err _ _ (escStep_u110000 suf)
  | cons c cs ih =>
    rw [List.all_cons, Bool.and_eq_true] at hpre
    rw [List.cons_append, unquote_cons_safe c _ hpre.1, ih hpre.2]
    rfl

theorem unquote_u10FFFF (pre suf : List Nat) (hpre : pre.all isSafe = true)
    (hsuf : suf.all isSafe = true) :
    unquote (pre ++ (0x5C :: 0x55 ::
      ([0x30, 0x30, 0x31, 0x30, 0x46, 0x46, 0x46, 0x46] ++ suf))) =
    .ok (pre ++ 0x10FFFF :: suf) := by
  induction pre with
  | nil =>
    rw [List.nil_append, unquote_backslash_ok _ _ _ (escStep_u10FFFF suf),
        unquote_safe suf hsuf]
    rfl
  | cons c cs ih =>
    rw [List.all_cons, Bool.and_eq_true] at hpre
    rw [List.cons_append, unquote_cons_safe c _ hpre.1, ih hpre.2]
    rfl

/-! C2. -/

/-- C2: the claim states that add with quoted=True and no context (and
quoted=True on a store without the formulaAware capability) always fails
with a StoreContractViolation.  The docstring of Store.add states the
same contract, but the body performs no check at all: for every triple
and every store state the call succeeds and dispatches the TripleAdded
event.  The claim matches the documented intent; the code is the slip. -/
theorem c2_add_quoted_no_error (t : Term × Term × Term)
    (events : List StoreEvent) :
    storeAdd t none true events = .ok (events ++ [.tripleAdded t none]) := rfl

/-! C10. -/

/-- C10: when the single list-valued slot of triples_choices is the empty
list, the implementation does not produce the empty union: it substitutes
None (the wildcard) in that position and yields exactly the triples
matching the remaining pattern, in all three slot positions. -/
theorem c10_empty_choices_wildcard (sv pv ov : Option Term)
    (ctx : Option Term)
    (T : Pat → Option Term → List ((Term × Term × Term) × Option Term)) :
    triples_choices (.val sv) (.val pv) (.choices []) ctx T =
      .ok (T (sv, pv, none) ctx) ∧
    triples_choices (.choices []) (.val pv) (.val ov) ctx T =
      .ok (T (none, pv, ov) ctx) ∧
    triples_choices (.val sv) (.choices []) (.val ov) ctx T =
      .ok (T (sv, none, ov) ctx) :=
  ⟨rfl, rfl, rfl⟩

/-! C6. -/

theorem matchRLine_none (buf : List Nat)
    (h : ∀ c ∈ buf, c ≠ 0x0D ∧ c ≠ 0x0A) : matchRLine buf = none := by
  have hall : buf.dropWhile (fun c => c != 0x0D && c != 0x0A) = [] := by
    rw [List.dropWhile_eq_nil_iff]
    intro x hx
    rcases h x hx with ⟨h1, h2⟩
    simp [h1, h2]
  simp [matchRLine, hall]

/-- C6: at source exhaustion the line reader raises EOF-in-line exactly
when the carry-over buffer is nonempty all-whitespace (without a line
terminator, otherwise a line would have been returned); an empty buffer
yields the clean no-more-lines signal; an unterminated remainder holding
a non-whitespace character is silently reported as no more lines. -/
theorem c6_readline_eof :
    (∀ buf : List Nat, buf ≠ [] →
       (∀ c ∈ buf, pySpace c = true ∧ c ≠ 0x0D ∧ c ≠ 0x0A) →
       readline [] buf = .error .eofInLine) ∧
    readline [] [] = .ok none ∧
    (∀ buf : List Nat, (∃ c ∈ buf, pySpace c = false) →
       (∀ c ∈ buf, c ≠ 0x0D ∧ c ≠ 0x0A) →
       readline [] buf = .ok none) := by
  refine ⟨?_, rfl, ?_⟩
  · intro buf hne h
    have hm : matchRLine buf = none :=
      matchRLine_none buf (fun c hc => (h c hc).2)
    have hsp : buf.all pySpace = true :=
      List.all_eq_true.mpr (fun c hc => (h c hc).1)
    simp [readline, hne, readlineLoop, hm, hsp]
  · intro buf hex h
    rcases hex with ⟨c, hc, hcsp⟩
    have hne : buf ≠ [] := by
      intro heq; rw [heq] at hc; exact absurd hc (List.not_mem_nil c)
    have hm : matchRLine buf = none := matchRLine_none buf h
    have hsp : buf.all pySpace = false := by
      rw [List.all_eq_false]
      exact ⟨c, hc, by simp [hcsp]⟩
    simp [readline, hne, readlineLoop, hm, hsp]

/-- Witness for C6 at concrete buffers: a lone space errors, a lone
letter x yields no-more-lines. -/
theorem c6_readline_eof_witness :
    readline [] [0x20] = .error .eofInLine ∧ readline [] [0x78] = .ok none :=
  ⟨c6_readline_eof.1 [0x20] (by decide) (by decide),
   c6_readline_eof.2.2 [0x78] ⟨0x78, by decide, by decide⟩ (by decide)⟩

/-! C8. -/

/-- C8: unquoting a literal body reaching a Unicode escape of value
0x110000 (one past the maximum code point) fails with the disallowed
codepoint error whatever follows, while the escape of value 0x10FFFF
succeeds and contributes exactly the code point 0x10FFFF; the context
around the escape is any safely-unquotable text. -/
theorem c8_codepoint_bounds :
    (∀ pre suf : List Nat, pre.all isSafe = true →
       unquote (pre ++ (0x5C :: 0x55 ::
         ([0x30, 0x30, 0x31, 0x31, 0x30, 0x30, 0x30, 0x30] ++ suf))) =
       .error .disallowedCodepoint) ∧
    (∀ pre suf : List Nat, pre.all isSafe = true → suf.all isSafe = true →
       unquote (pre ++ (0x5C :: 0x55 ::
         ([0x30, 0x30, 0x31, 0x30, 0x46, 0x46, 0x46, 0x46] ++ suf))) =
       .ok (pre ++ 0x10FFFF :: suf)) :=
  ⟨fun pre suf hpre => unquote_u110000 pre suf hpre,
   fun pre suf hpre hsuf => unquote_u10FFFF pre suf hpre hsuf⟩

/-- Witness for C8 with one safe character on each side of the escape. -/
theorem c8_codepoint_bounds_witness :
    unquote ([0x61] ++ (0x5C :: 0x55 ::
      ([0x30, 0x30, 0x31, 0x31, 0x30, 0x30, 0x30, 0x30] ++ [0x62]))) =
      .error .disallowedCodepoint ∧
    unquote ([0x61] ++ (0x5C :: 0x55 ::
      ([0x30, 0x30, 0x31, 0x30, 0x46, 0x46, 0x46, 0x46] ++ [0x62]))) =
      .ok ([0x61] ++ 0x10FFFF :: [0x62]) :=
  ⟨c8_codepoint_bounds.1 [0x61] [0x62] (by decide),
   c8_codepoint_bounds.2 [0x61] [0x62] (by decide) (by decide)⟩

/-! Lemmas about the uriref and nodeid matchers. -/

theorem wfUri_spec (s : List Nat) (h : wfUri s = true) :
    s.takeWhile (· != 0x3A) ≠ [] ∧
    (∃ B, s.dropWhile (· != 0x3A) = 0x3A :: B ∧ B ≠ [] ∧ B.all okB = true) ∧
    s.all isSafe = true := by
  unfold wfUri at h
  rw [Bool.and_eq_true, Bool.and_eq_true] at h
  obtain ⟨⟨h1, h2⟩, h3⟩ := h
  refine ⟨of_decide_eq_true h1, ?_, h3⟩
  split at h2
  · next B heq =>
      rw [Bool.and_eq_true] at h2
      exact ⟨B, heq, of_decide_eq_true h2.1, h2.2⟩
  · next heq => simp at h2

theorem matchUriref_wf (s : List Nat) (h : wfUri s = true) (r : List Nat) :
    matchUriref (0x3C :: (s ++ 0x3E :: r)) = some (s, r) := by
  obtain ⟨hA, ⟨B, hd, hBne, hBall⟩, _⟩ := wfUri_spec s h
  have hAmem : ∀ a ∈ s.takeWhile (· != 0x3A), (a != 0x3A) = true :=
    fun a ha => List.mem_takeWhile_imp (p := (· != 0x3A)) ha
  have hBmem : ∀ b ∈ B, okB b = true := List.all_eq_true.mp hBall
  have hs : s = s.takeWhile (· != 0x3A) ++ 0x3A :: B := by
    conv_lhs => rw [← List.takeWhile_append_dropWhile (p := (· != 0x3A)) (l := s)]
    rw [hd]
  have hcs : s ++ 0x3E :: r =
      s.takeWhile (· != 0x3A) ++ 0x3A :: (B ++ 0x3E :: r) := by
    conv_lhs => rw [hs]
    simp
  rw [hcs]
  have h58 : (0x3A != 0x3A) = false := by decide
  have h3E : okB 0x3E = false := by decide
  simp only [matchUriref,
    dropWhile_append_cons _ _ 0x3A _ hAmem h58,
    takeWhile_append_cons _ _ 0x3A _ hAmem h58,
    dropWhile_append_cons okB B 0x3E r hBmem h3E,
    takeWhile_append_cons okB B 0x3E r hBmem h3E,
    if_neg hA, if_neg hBne]
  rw [← hs]

theorem matchNodeid_wf (c : Nat) (cs : List Nat) (hc : isAlpha c = true)
    (hcs : cs.all isAlnum = true) :
    matchNodeid (0x5F :: 0x3A :: c :: cs) = some (c :: cs, []) := by
  simp only [matchNodeid, hc, if_true]
  rw [List.takeWhile_eq_self_iff.mpr (fun x hx => List.all_eq_true.mp hcs x hx),
      List.dropWhile_eq_nil_iff.mpr (fun x hx => List.all_eq_true.mp hcs x hx)]

/-! C9. -/

/-- C9 amended: the uriref token matcher accepts only scheme-like
content: a successful match's group is a nonempty colon-free part, a
colon, then a nonempty run free of whitespace, quote and angle brackets.
But the match is greedy across the line, so a colon-free angle group
like the subject of the counterexample line can be absorbed into a
longer IRI-ref instead of failing; and when no match exists at all (a
line with no colon anywhere) the failure is the generic failed-to-eat
ParseError of the eat method, not the Malformed-subject error. -/
theorem c9_scheme_amended :
    (∀ cs g r : List Nat, matchUriref (0x3C :: cs) = some (g, r) →
       ∃ A B : List Nat, g = A ++ 0x3A :: B ∧ A ≠ [] ∧
         (∀ a ∈ A, a ≠ 0x3A) ∧ B ≠ [] ∧ (∀ b ∈ B, okB b = true)) ∧
    parseline (codes ("<foo> <b> <c> .")) =
      .error (.failedToEat, codes ("<foo> <b> <c> .")) := by
  constructor
  · intro cs g r h
    simp only [matchUriref] at h
    split at h
    · next cs2 heq =>
        by_cases hA : cs.takeWhile (· != 0x3A) = []
        · rw [if_pos hA] at h
          exact absurd h (by simp)
        · rw [if_neg hA] at h
          split at h
          · next r2 heq2 =>
              by_cases hB2 : cs2.takeWhile okB = []
              · rw [if_pos hB2] at h
                exact absurd h (by simp)
              · rw [if_neg hB2] at h
                injection h with h9
                injection h9 with hg hr
                refine ⟨cs.takeWhile (· != 0x3A), cs2.takeWhile okB,
                  hg.symm, hA, ?_, hB2, ?_⟩
                · intro a ha
                  have := List.mem_takeWhile_imp (p := (· != 0x3A)) ha
                  simpa using this
                · intro b hb
                  exact List.mem_takeWhile_imp (p := okB) hb
          · next heq2 => exact absurd h (by simp)
    · next heq => exact absurd h (by simp)
  · decide

/-- Witness for C9: the shape of the accepted group a:b. -/
theorem c9_scheme_amended_witness :
    ∃ A B : List Nat, codes ("a:b") = A ++ 0x3A :: B ∧ A ≠ [] ∧
      (∀ a ∈ A, a ≠ 0x3A) ∧ B ≠ [] ∧ (∀ b ∈ B, okB b = true) :=
  c9_scheme_amended.1 (codes ("a:b>")) (codes ("a:b")) [] (by decide)

/-- C9 counterexample: the line whose subject angle group foo has no
colon does not fail; the greedy uriref pattern absorbs it into the
IRI-ref foo-gt-space-lt-p:q and the line parses to a triple. -/
theorem c9_scheme_counterexample :
    parseline (codes ("<foo> <p:q> <a:b> _:x .")) =
      .ok (some (.uriref (codes ("foo> <p:q")), .uriref (codes ("a:b")),
        .bnode (codes ("x")))) := by decide

/-! C5. -/

/-- C5 counterexample: the IRI-ref whose content is a-colon-backslash-t-b
parses successfully, but the resulting IRI string holds a substituted tab
character, not the verbatim characters between the angle brackets. -/
theorem c5_iri_unquote_counterexample :
    parseline (codes ("<a:\\tb> <p:q> <o:r> .")) =
      .ok (some (.uriref (codes ("a:") ++ 0x09 :: codes ("b")),
        .uriref (codes ("p:q")), .uriref (codes ("o:r")))) ∧
    codes ("a:") ++ 0x09 :: codes ("b") ≠ codes ("a:\\tb") := by decide

/-- C5 amended: the string-unescaping pass is applied to IRI-ref content
as well as to literal bodies: a backslash-u escape inside an IRI-ref is
substituted by its code point, and an invalid escape inside an IRI-ref
makes the whole line fail with the illegal-escape ParseError. -/
theorem c5_iri_unquote_amended :
    parseline (codes ("<s:1> <p:q> <a:\\u0041b> .")) =
      .ok (some (.uriref (codes ("s:1")), .uriref (codes ("p:q")),
        .uriref (codes ("a:Ab")))) ∧
    parseline (codes ("<a:\\xb> <p:q> <o:r> .")) =
      .error (.illegalEscape, codes (" <p:q> <o:r> .")) := by decide

/-! C3 counterexample. -/

/-- C3 counterexample: the IRI foo (no colon) serializes to angle-foo,
which the parser rejects, so re-parsing the canonical serialization does
not reconstruct the term. -/
theorem c3_roundtrip_counterexample :
    objectP (termN3 (.uriref (codes ("foo")))) =
      .error (.failedToEat, codes ("<foo>")) := by decide

/-! C7. -/

/-- C7 amended: a ParseError on any line aborts the whole parse and is
re-raised as the Invalid-line error, but the payload is the residual
unconsumed portion of the offending line at the moment of failure (the
mutated self.line), not the full raw line delivered by the line reader. -/
theorem c7_error_payload_amended (pre : List (List Nat)) (bad : List Nat)
    (post : List (List Nat)) (sink : Sink) (e : PErr) (res : List Nat)
    (hpre : ∀ l ∈ pre, parselineOk l = true)
    (hbad : parseline bad = .error (e, res)) :
    parseLines (pre ++ bad :: post) sink = .error (.invalidLine res) := by
  induction pre generalizing sink with
  | nil => simp only [List.nil_append, parseLines, hbad]
  | cons l ls ih =>
    have hl : parselineOk l = true := hpre l (List.mem_cons_self l ls)
    have hls : ∀ x ∈ ls, parselineOk x = true :=
      fun x hx => hpre x (List.mem_cons_of_mem l hx)
    rw [List.cons_append]
    cases hpl : parseline l with
    | error pr =>
      unfold parselineOk at hl
      rw [hpl] at hl
      simp at hl
    | ok t =>
      cases t with
      | none =>
        simp only [parseLines, hpl]
        exact ih sink hls
      | some tr =>
        simp only [parseLines, hpl]
        exact ih (sinkTriple sink tr) hls

/-- Witness for C7: a comment line followed by a bad line z aborts with
the Invalid-line error carrying z. -/
theorem c7_error_payload_amended_witness :
    parseLines ([codes ("# c")] ++ codes ("z") :: []) ⟨0, []⟩ =
      .error (.invalidLine (codes ("z"))) :=
  c7_error_payload_amended [codes ("# c")] (codes ("z")) [] ⟨0, []⟩
    .malformedSubject (codes ("z")) (by decide) (by decide)

/-- C7 counterexample: parsing the single line lt-a:b-gt-space-dot fails
at the predicate, and the wrapped error payload is the residual dot, not
the full raw line. -/
theorem c7_error_payload_counterexample :
    parseNT [codes ("<a:b> .\n")] ⟨0, []⟩ =
      .error (.invalidLine (codes ("."))) ∧
    codes (".") ≠ codes ("<a:b> .") := by decide

/-! C4. -/

/-- C4 amended: literal equality compares the derived comparison values,
requiring equal language tags and datatypes, except that two numeric
comparison values compare numerically even across datatypes; in
particular two literals differing in lexical form can be equal when a
registered conversion maps both to the same value. -/
theorem c4_literal_eq_amended (a b : Lit) : literalEq a b = specLitEq a b := by
  unfold literalEq specLitEq
  split_ifs with h1 h2
  · obtain ⟨hl, hd⟩ := h1
    cases hpe : pyEq a.cmp b.cmp <;>
      cases hn1 : isNumVal a.cmp <;> cases hn2 : isNumVal b.cmp <;>
        simp [hl, hd, hpe, hn1, hn2]
  · rcases not_and_or.mp h1 with h | h <;>
      cases hpe : pyEq a.cmp b.cmp <;> simp [h, h2, hpe]
  · rcases not_and_or.mp h1 with h | h <;> simp [h, h2]

/-- C4 counterexample: the integer literals with lexical forms 1 and 01
have different lexical strings yet compare equal, through the derived
comparison value int 1. -/
theorem c4_literal_eq_counterexample :
    literalEq (mkLit (codes ("1")) none (some (xsdPfx ++ codes ("integer"))))
        (mkLit (codes ("01")) none (some (xsdPfx ++ codes ("integer")))) =
      true ∧
    (mkLit (codes ("1")) none (some (xsdPfx ++ codes ("integer")))).value ≠
      (mkLit (codes ("01")) none (some (xsdPfx ++ codes ("integer")))).value := by
  decide

/-! C1. -/

theorem safe_no_crlf (c : Nat) (h : isSafe c = true) : c ≠ 0x0D ∧ c ≠ 0x0A := by
  rw [isSafe, decide_eq_true_iff] at h
  omega

theorem urirefP_wf (s : List Nat) (h : wfUri s = true) (r : List Nat) :
    urirefP (0x3C :: (s ++ 0x3E :: r)) = .ok (.uriref s, r) := by
  obtain ⟨_, _, hsafe⟩ := wfUri_spec s h
  simp only [urirefP, matchUriref_wf s h r, unquote_safe s hsafe]

theorem subjectP_wf (s : List Nat) (h : wfUri s = true) (r : List Nat) :
    subjectP (0x3C :: (s ++ 0x3E :: r)) = .ok (.uriref s, r) := by
  simp [subjectP, urirefP_wf s h r]

theorem predicateP_wf (s : List Nat) (h : wfUri s = true) (r : List Nat) :
    predicateP (0x3C :: (s ++ 0x3E :: r)) = .ok (.uriref s, r) := by
  simp [predicateP, urirefP_wf s h r]

theorem objectP_uri_wf (s : List Nat) (h : wfUri s = true) (r : List Nat) :
    objectP (0x3C :: (s ++ 0x3E :: r)) = .ok (.uriref s, r) := by
  simp [objectP, urirefP_wf s h r]

theorem eatWspaces_space (x : Nat) (xs : List Nat) (hx : isSpTab x = false) :
    eatWspaces (0x20 :: x :: xs) = some (x :: xs) := by
  have h20 : isSpTab 0x20 = true := by decide
  simp [eatWspaces, h20, List.dropWhile_cons, hx]

theorem eatWspaces_lt (xs : List Nat) :
    eatWspaces (0x20 :: 0x3C :: xs) = some (0x3C :: xs) :=
  eatWspaces_space 0x3C xs (by decide)

theorem parseline_ntLine (s p o : List Nat) (hs : wfUri s = true)
    (hp : wfUri p = true) (ho : wfUri o = true) :
    parseline (ntLine s p o) =
      .ok (some (.uriref s, .uriref p, .uriref o)) := by
  have h3C : isSpTab 0x3C = false := by decide
  unfold ntLine parseline
  rw [dropWhile_head_false isSpTab 0x3C _ h3C]
  rw [if_neg (by simp)]
  simp only [subjectP_wf s hs, eatWspaces_lt, predicateP_wf p hp,
    objectP_uri_wf o ho]
  rfl

theorem ntLine_no_crlf (s p o : List Nat) (hs : wfUri s = true)
    (hp : wfUri p = true) (ho : wfUri o = true) :
    ∀ c ∈ ntLine s p o, c ≠ 0x0D ∧ c ≠ 0x0A := by
  obtain ⟨_, _, hsafeS⟩ := wfUri_spec s hs
  obtain ⟨_, _, hsafeP⟩ := wfUri_spec p hp
  obtain ⟨_, _, hsafeO⟩ := wfUri_spec o ho
  intro c hc
  simp only [ntLine, List.mem_cons, List.mem_append, List.not_mem_nil,
    or_false] at hc
  rcases hc with h | h | h | h | h | h | h | h | h | h | h | h | h
  all_goals first
    | exact safe_no_crlf c (List.all_eq_true.mp hsafeS c h)
    | exact safe_no_crlf c (List.all_eq_true.mp hsafeP c h)
    | exact safe_no_crlf c (List.all_eq_true.mp hsafeO c h)
    | omega

theorem matchRLine_term (l : List Nat)
    (h : ∀ c ∈ l, c ≠ 0x0D ∧ c ≠ 0x0A) :
    matchRLine (l ++ [0x0A]) = some (l, []) := by
  have hmem : ∀ c ∈ l, ((c != 0x0D) && (c != 0x0A)) = true := by
    intro c hc
    simp [(h c hc).1, (h c hc).2]
  have h0A : ((0x0A != 0x0D) && ((0x0A : Nat) != 0x0A)) = false := by decide
  simp only [matchRLine,
    dropWhile_append_cons _ l 0x0A [] hmem h0A,
    takeWhile_append_cons _ l 0x0A [] hmem h0A]

theorem readline_single (l : List Nat)
    (h : ∀ c ∈ l, c ≠ 0x0D ∧ c ≠ 0x0A) :
    readline [l ++ [0x0A]] [] = .ok (some (l, [], [])) := by
  simp only [readline, if_pos rfl, readlineLoop, matchRLine_term l h]
  simp

theorem parseGo_nil (n : Nat) (sink : Sink) :
    parseGo n [] [] sink = .ok sink := by
  cases n with
  | zero => rfl
  | succ n => simp [parseGo, readline]

/-- C1: parsing the well-formed single line lt-s-gt space lt-p-gt space
lt-o-gt space dot line-feed emits exactly one triple (IRI s, IRI p,
IRI o) to the sink, and the sink's length counter increases by exactly
one, whatever it held before. -/
theorem c1_single_line_parse (s p o : List Nat) (sink : Sink)
    (hs : wfUri s = true) (hp : wfUri p = true) (ho : wfUri o = true) :
    parseNT [ntLine s p o ++ [0x0A]] sink =
      .ok { length := sink.length + 1,
            triples := sink.triples ++ [(.uriref s, .uriref p, .uriref o)] } := by
  unfold parseNT
  simp only [parseGo, readline_single _ (ntLine_no_crlf s p o hs hp ho),
    parseline_ntLine s p o hs hp ho]
  rfl

/-- Witness for C1 at the concrete triple a:b a:b a:b and the empty
default sink. -/
theorem c1_single_line_parse_witness :
    parseNT [ntLine (codes ("a:b")) (codes ("a:b")) (codes ("a:b")) ++ [0x0A]]
        ⟨0, []⟩ =
      .ok { length := 1,
            triples := [(.uriref (codes ("a:b")), .uriref (codes ("a:b")),
              .uriref (codes ("a:b")))] } :=
  c1_single_line_parse (codes ("a:b")) (codes ("a:b")) (codes ("a:b"))
    ⟨0, []⟩ (by decide) (by decide) (by decide)

/-! C3 amended: round-trip on the parser-representable subset. -/

theorem isSafe_spec (c : Nat) (h : isSafe c = true) :
    0x20 ≤ c ∧ c ≤ 0x7E ∧ c ≠ 0x22 ∧ c ≠ 0x5C := by
  rw [isSafe, decide_eq_true_iff] at h
  exact h

theorem wfLitChar_cases (c : Nat) (h : wfLitChar c = true) :
    c = 0x5C ∨ c = 0x0A ∨ c = 0x22 ∨ isSafe c = true := by
  simp only [wfLitChar, Bool.or_eq_true, decide_eq_true_eq, beq_iff_eq] at h
  by_cases h1 : c = 0x5C
  · exact Or.inl h1
  by_cases h2 : c = 0x0A
  · exact Or.inr (Or.inl h2)
  by_cases h3 : c = 0x22
  · exact Or.inr (Or.inr (Or.inl h3))
  refine Or.inr (Or.inr (Or.inr ?_))
  rw [isSafe, decide_eq_true_iff]
  omega

theorem qEncode_cons_esc (c : Nat) (t : List Nat)
    (h : c = 0x5C ∨ c = 0x0A ∨ c = 0x22) :
    qEncode (c :: t) =
      0x5C :: (if c = 0x0A then 0x6E else c) :: qEncode t := by
  rcases h with rfl | rfl | rfl <;> simp [qEncode]

theorem qEncode_cons_plain (c : Nat) (t : List Nat) (h : isSafe c = true) :
    qEncode (c :: t) = c :: qEncode t := by
  obtain ⟨_, _, h22, h5C⟩ := isSafe_spec c h
  have h0A : c ≠ 0x0A := by omega
  simp [qEncode, h22, h5C, h0A]

theorem scanBodyGo_fuel (s : List Nat) (n m : Nat) (hn : s.length ≤ n)
    (hm : s.length ≤ m) : scanBodyGo n s = scanBodyGo m s := by
  match s, n, m with
  | [], _, _ => simp only [scanBodyGo]
  | _ :: _, 0, _ => simp at hn
  | _ :: _, _ + 1, 0 => simp at hm
  | [c], _ + 1, _ + 1 => simp only [scanBodyGo]
  | c :: d :: ds, n + 1, m + 1 =>
    simp only [List.length_cons] at hn hm
    simp only [scanBodyGo]
    rw [scanBodyGo_fuel ds n m (by omega) (by omega),
        scanBodyGo_fuel (d :: ds) n m (by simp only [List.length_cons]; omega)
          (by simp only [List.length_cons]; omega)]
termination_by s.length
decreasing_by
  · simp only [List.length_cons]; omega
  · simp only [List.length_cons]; omega

theorem scanBodyGo_pin (n : Nat) (s : List Nat) (h : s.length ≤ n) :
    scanBodyGo n s = scanBodyGo s.length s :=
  scanBodyGo_fuel s n s.length h (Nat.le_refl _)

theorem scanBody_quote (rest : List Nat) :
    scanBody (0x22 :: rest) = some ([], rest) := by
  cases rest with
  | nil => rfl
  | cons d ds =>
    show scanBodyGo (ds.length + 1 + 1) (0x22 :: d :: ds) = _
    simp [scanBodyGo]

theorem scanBody_esc (d : Nat) (ds : List Nat) (hd : d ≠ 0x0A) :
    scanBody (0x5C :: d :: ds) =
      (scanBody ds).map (fun p => (0x5C :: d :: p.1, p.2)) := by
  show scanBodyGo (ds.length + 1 + 1) (0x5C :: d :: ds) = _
  simp only [scanBodyGo]
  rw [scanBodyGo_pin (ds.length + 1) ds (by omega)]
  simp [hd]
  rfl

theorem scanBody_plain (c : Nat) (cs : List Nat) (h22 : c ≠ 0x22)
    (h5C : c ≠ 0x5C) :
    scanBody (c :: cs) = (scanBody cs).map (fun p => (c :: p.1, p.2)) := by
  cases cs with
  | nil =>
    show scanBodyGo 1 [c] = _
    simp only [scanBodyGo]
    rw [if_neg h22]
    rfl
  | cons d ds =>
    show scanBodyGo (ds.length + 1 + 1) (c :: d :: ds) = _
    simp only [scanBodyGo]
    rw [if_neg h22, if_neg h5C]
    rfl

theorem scanBody_qE (v : List Nat) (rest : List Nat)
    (hv : v.all wfLitChar = true) :
    scanBody (qEncode v ++ 0x22 :: rest) = some (qEncode v, rest) := by
  induction v with
  | nil =>
    simp only [qEncode, List.flatMap_nil, List.nil_append]
    exact scanBody_quote rest
  | cons c t ih =>
    rw [List.all_cons, Bool.and_eq_true] at hv
    rcases wfLitChar_cases c hv.1 with h | h | h | h
    · subst h
      rw [qEncode_cons_esc 0x5C t (Or.inl rfl)]
      simp only [List.cons_append]
      rw [scanBody_esc _ _ (by decide), ih hv.2]
      rfl
    · subst h
      rw [qEncode_cons_esc 0x0A t (Or.inr (Or.inl rfl))]
      simp only [List.cons_append]
      rw [scanBody_esc _ _ (by decide), ih hv.2]
      rfl
    · subst h
      rw [qEncode_cons_esc 0x22 t (Or.inr (Or.inr rfl))]
      simp only [List.cons_append]
      rw [scanBody_esc _ _ (by decide), ih hv.2]
      rfl
    · obtain ⟨_, _, h22, h5C⟩ := isSafe_spec c h
      rw [qEncode_cons_plain c t h]
      simp only [List.cons_append]
      rw [scanBody_plain c _ h22 h5C, ih hv.2]
      rfl

theorem unquote_qE (v : List Nat) (hv : v.all wfLitChar = true) :
    unquote (qEncode v) = .ok v := by
  induction v with
  | nil => rfl
  | cons c t ih =>
    rw [List.all_cons, Bool.and_eq_true] at hv
    rcases wfLitChar_cases c hv.1 with h | h | h | h
    · subst h
      rw [qEncode_cons_esc 0x5C t (Or.inl rfl)]
      rw [show ((if (0x5C : Nat) = 0x0A then 0x6E else 0x5C) : Nat) = 0x5C
        from by decide]
      rw [unquote_backslash_ok (0x5C :: qEncode t) 0x5C (qEncode t) rfl,
        ih hv.2]
      rfl
    · subst h
      rw [qEncode_cons_esc 0x0A t (Or.inr (Or.inl rfl))]
      rw [show ((if (0x0A : Nat) = 0x0A then 0x6E else 0x0A) : Nat) = 0x6E
        from by decide]
      rw [unquote_backslash_ok (0x6E :: qEncode t) 0x0A (qEncode t) rfl,
        ih hv.2]
      rfl
    · subst h
      rw [qEncode_cons_esc 0x22 t (Or.inr (Or.inr rfl))]
      rw [show ((if (0x22 : Nat) = 0x0A then 0x6E else 0x22) : Nat) = 0x22
        from by decide]
      rw [unquote_backslash_ok (0x22 :: qEncode t) 0x22 (qEncode t) rfl,
        ih hv.2]
      rfl
    · rw [qEncode_cons_plain c t h, unquote_cons_safe c _ h, ih hv.2]
      rfl

theorem pyEq_refl (x : PyVal) : pyEq x x = true := by
  cases x <;> simp [pyEq]

theorem termEq_refl (t : Term) : termEq t t = true := by
  cases t with
  | uriref s => simp [termEq]
  | bnode b => simp [termEq]
  | literal l => simp [termEq, literalEq, pyEq_refl]

theorem objectP_literal_wf (l : Lit) (h : wfTerm (.literal l) = true) :
    objectP (termN3 (.literal l)) = .ok (.literal l, []) := by
  rcases l with ⟨v, lg, dt, cmp⟩
  simp only [wfTerm, Bool.and_eq_true] at h
  obtain ⟨⟨hv, hshape⟩, hcmp⟩ := h
  rw [decide_eq_true_iff] at hcmp
  match lg, dt with
  | some lgv, some dtv => simp at hshape
  | none, none =>
    show objectP (0x22 :: (qEncode v ++ 0x22 :: [])) = _
    have hml : matchLiteral (0x22 :: (qEncode v ++ 0x22 :: [])) =
        some (qEncode v, none, none, []) := by
      simp only [matchLiteral, scanBody_qE v [] hv]
    simp only [objectP, literalP, List.head?_cons, hml, unquote_qE v hv]
    simp only [mkLit] at hcmp ⊢
    rw [hcmp]
    simp
  | some lgv, none =>
    rw [decide_eq_true_iff] at hshape
    have hterm : termN3 (.literal ⟨v, some lgv, none, cmp⟩) =
        0x22 :: (qEncode v ++ 0x22 :: 0x40 :: lgv) := by
      simp [termN3]
    rw [hterm]
    have hml : matchLiteral (0x22 :: (qEncode v ++ 0x22 :: 0x40 :: lgv)) =
        some (qEncode v, some lgv, none, []) := by
      simp only [matchLiteral, scanBody_qE v (0x40 :: lgv) hv, hshape]
    simp only [objectP, literalP, List.head?_cons, hml, unquote_qE v hv]
    simp only [mkLit] at hcmp ⊢
    rw [hcmp]
    simp
  | none, some dtv =>
    have hterm : termN3 (.literal ⟨v, none, some dtv, cmp⟩) =
        0x22 :: (qEncode v ++ 0x22 :: 0x5E :: 0x5E :: 0x3C ::
          (dtv ++ 0x3E :: [])) := by
      simp [termN3]
    rw [hterm]
    have hml : matchLiteral (0x22 :: (qEncode v ++ 0x22 :: 0x5E :: 0x5E ::
        0x3C :: (dtv ++ 0x3E :: []))) =
        some (qEncode v, none, some dtv, []) := by
      simp only [matchLiteral,
        scanBody_qE v (0x5E :: 0x5E :: 0x3C :: (dtv ++ 0x3E :: [])) hv,
        matchUriref_wf dtv hshape []]
    simp only [objectP, literalP, List.head?_cons, hml, unquote_qE v hv]
    simp only [mkLit] at hcmp ⊢
    rw [hcmp]
    simp

/-- C3 amended: on the parser-representable subset of terms (scheme-like
safe IRIs, letter-led alphanumeric blank-node labels, literals of
printable-or-newline lexical value with at most one of a lowercase
language tag or a scheme-like safe datatype, and the derived comparison
value), re-parsing the canonical textual serialization at the object
position reconstructs exactly the original term, which is equal to
itself under term equality. -/
theorem c3_roundtrip_amended (t : Term) (h : wfTerm t = true) :
    objectP (termN3 t) = .ok (t, []) ∧ termEq t t = true := by
  refine ⟨?_, termEq_refl t⟩
  match t with
  | .uriref s => exact objectP_uri_wf s h []
  | .bnode b =>
    match b with
    | [] => simp [wfTerm] at h
    | c :: cs =>
      simp only [wfTerm, Bool.and_eq_true] at h
      show objectP (0x5F :: 0x3A :: c :: cs) = _
      simp [objectP, nodeidP, matchNodeid_wf c cs h.1 h.2]
  | .literal l => exact objectP_literal_wf l h

/-- Witness for C3 at a concrete language-tagged literal. -/
theorem c3_roundtrip_amended_witness :
    objectP (termN3 (.literal (mkLit (codes ("hi")) (some (codes ("en")))
        none))) =
      .ok (.literal (mkLit (codes ("hi")) (some (codes ("en"))) none), []) ∧
    termEq (.literal (mkLit (codes ("hi")) (some (codes ("en"))) none))
      (.literal (mkLit (codes ("hi")) (some (codes ("en"))) none)) = true :=
  c3_roundtrip_amended
    (.literal (mkLit (codes ("hi")) (some (codes ("en"))) none)) (by decide)

end Rdflib
